import Mathlib

/-!
# aws-go: filter translation and response reshaping (`function/function.go`)

A shallow embedding of the functions of `function/function.go` and of the
`stop` command (`cmd/nephele/ec2/stop.go`), together with the parts of the Go
standard library they call (`strings`, `unicode/utf8`, `unicode`, `strconv`).

Conventions of the embedding:

* a Go `string` is its sequence of bytes (`GoString`);
* a Go pointer that the code dereferences is an `Option`; dereferencing `nil`
  is a run-time panic, and a function that can panic returns `Option`, with
  `none` standing for the panic;
* a Go `error` value is its message; a returned `error` is an `Option`, `none`
  being the `nil` error;
* a slice whose `nil`-ness the code tests is an `Option (List _)`, any other
  slice is a `List`;
* calls to the AWS service are functions taken as parameters.
-/

set_option autoImplicit false

namespace AwsGo

/-! ## Go strings -/

/-- A Go string: an immutable sequence of bytes. -/
abbrev GoString := List Nat

/-- The bytes of an ASCII string literal of the source. -/
def lit (s : String) : GoString := s.toList.map Char.toNat

/-- A Go `error` built by `errors.New`: its message. -/
abbrev GoError := GoString

/-! ## `unicode/utf8` -/

namespace utf8

/-- The constant `utf8.RuneError`, U+FFFD. -/
def RuneError : Nat := 0xFFFD

/-- The constant `utf8.MaxRune`. -/
def MaxRune : Nat := 0x10FFFF

/-- The table `first` of `unicode/utf8`: information about the first byte of
an encoding. `0xF0` is ASCII (`as`), `0xF1` is an invalid first byte (`xx`);
otherwise the low three bits are the size of the sequence and the high four
bits index `acceptRanges`. -/
def first (b : Nat) : Nat :=
  if b < 0x80 then 0xF0
  else if b < 0xC2 then 0xF1
  else if b < 0xE0 then 0x02
  else if b = 0xE0 then 0x13
  else if b < 0xED then 0x03
  else if b = 0xED then 0x23
  else if b < 0xF0 then 0x03
  else if b = 0xF0 then 0x34
  else if b < 0xF4 then 0x04
  else if b = 0xF4 then 0x44
  else 0xF1

/-- The table `acceptRanges`: the range `(lo, hi)` allowed for the second
byte of a sequence. -/
def acceptRanges (i : Nat) : Nat × Nat :=
  match i with
  | 0 => (0x80, 0xBF)
  | 1 => (0xA0, 0xBF)
  | 2 => (0x80, 0x9F)
  | 3 => (0x90, 0xBF)
  | _ => (0x80, 0x8F)

/-- The function `utf8.DecodeRuneInString`: the first rune of `s` and its
width in bytes; `(RuneError, 1)` on an invalid or truncated encoding and
`(RuneError, 0)` on the empty string. Masks and shifts of the source are
written with `%` and `*`: `s0 & mask2` is `s0 % 32`, `x << 6` is `x * 64`. -/
def DecodeRuneInString (s : GoString) : Nat × Nat :=
  let n := s.length
  if n < 1 then (RuneError, 0)
  else
    let s0 := s.getD 0 0
    let x := first s0
    if x ≥ 0xF0 then
      (if x = 0xF0 then (s0, 1) else (RuneError, 1))
    else
      let sz := x % 8
      let accept := acceptRanges (x / 16)
      if n < sz then (RuneError, 1)
      else
        let s1 := s.getD 1 0
        if s1 < accept.1 ∨ accept.2 < s1 then (RuneError, 1)
        else if sz ≤ 2 then (s0 % 32 * 64 + s1 % 64, 2)
        else
          let s2 := s.getD 2 0
          if s2 < 0x80 ∨ 0xBF < s2 then (RuneError, 1)
          else if sz ≤ 3 then (s0 % 16 * 4096 + s1 % 64 * 64 + s2 % 64, 3)
          else
            let s3 := s.getD 3 0
            if s3 < 0x80 ∨ 0xBF < s3 then (RuneError, 1)
            else (s0 % 8 * 262144 + s1 % 64 * 4096 + s2 % 64 * 64 + s3 % 64, 4)

/-- The runes visited by `for _, c := range s`, at most `fuel` of them: each
step decodes one rune and advances by its width. -/
def rangeAux : Nat → GoString → List Nat
  | 0, _ => []
  | fuel + 1, s =>
    match s with
    | [] => []
    | _ :: _ =>
      let d := DecodeRuneInString s
      d.1 :: rangeAux fuel (s.drop d.2)

/-- The runes visited by `for _, c := range s`. Every step consumes at least
one byte, so `s.length` steps are enough (`rangeAux_fuel`). -/
def range (s : GoString) : List Nat := rangeAux s.length s

/-- The function `utf8.EncodeRune`: the UTF-8 encoding of `r`; a rune out of
range or a surrogate is encoded as `RuneError`. -/
def EncodeRune (r : Nat) : GoString :=
  if r ≤ 0x7F then [r]
  else if r ≤ 0x7FF then [0xC0 + r / 64, 0x80 + r % 64]
  else
    let r := if r > MaxRune ∨ (0xD800 ≤ r ∧ r ≤ 0xDFFF) then RuneError else r
    if r ≤ 0xFFFF then [0xE0 + r / 4096, 0x80 + r / 64 % 64, 0x80 + r % 64]
    else [0xF0 + r / 262144, 0x80 + r / 4096 % 64, 0x80 + r / 64 % 64, 0x80 + r % 64]

end utf8

/-! ## `unicode` -/

/-- The case tables of package `unicode` beyond ASCII, which the embedding
does not fix: `To c r` is `unicode.To(c, r)`, and the three predicates are
`unicode.IsLetter`, `unicode.IsDigit` and `unicode.IsSpace`. -/
structure UnicodeTables where
  To : Nat → Nat → Nat
  IsLetter : Nat → Bool
  IsDigit : Nat → Bool
  IsSpace : Nat → Bool

namespace unicode

/-- The constant `unicode.MaxASCII`. -/
def MaxASCII : Nat := 0x7F

/-- The constant `unicode.LowerCase`. -/
def LowerCase : Nat := 1

/-- The constant `unicode.TitleCase`. -/
def TitleCase : Nat := 2

/-- The function `unicode.ToTitle`. -/
def ToTitle (tbl : UnicodeTables) (r : Nat) : Nat :=
  if r ≤ MaxASCII then
    (if 0x61 ≤ r ∧ r ≤ 0x7A then r - (0x61 - 0x41) else r)
  else tbl.To TitleCase r

/-- The function `unicode.ToLower`. -/
def ToLower (tbl : UnicodeTables) (r : Nat) : Nat :=
  if r ≤ MaxASCII then
    (if 0x41 ≤ r ∧ r ≤ 0x5A then r + (0x61 - 0x41) else r)
  else tbl.To LowerCase r

end unicode

/-! ## `strings` -/

namespace strings

/-- Whether `s` begins with `p` (`strings.HasPrefix`). -/
def startsWith : GoString → GoString → Bool
  | _, [] => true
  | [], _ :: _ => false
  | c :: cs, p :: ps => c == p && startsWith cs ps

/-- The function `strings.Contains`: whether `substr` occurs in `s`. -/
def Contains : GoString → GoString → Bool
  | [], substr => substr.isEmpty
  | c :: cs, substr => startsWith (c :: cs) substr || Contains cs substr

/-- The function `strings.Split(s, sep)` for a one-byte separator: the
pieces of `s` between the occurrences of `sep`, of which there is always at
least one. -/
def Split (s : GoString) (sep : Nat) : List GoString :=
  match s with
  | [] => [[]]
  | c :: cs =>
    if c = sep then [] :: Split cs sep
    else
      match Split cs sep with
      | [] => [[c]]
      | p :: ps => (c :: p) :: ps

/-- The function `strings.Map`: every rune of `s` replaced by its image and
encoded again. An invalid byte is seen as `RuneError` and written as the
encoding of its image; on valid UTF-8 no release of Go differs. The runes of
the library are never negative, so none is dropped. -/
def Map (mapping : Nat → Nat) (s : GoString) : GoString :=
  (utf8.range s).flatMap (fun c => utf8.EncodeRune (mapping c))

/-- The function `isSeparator` of package `strings`: whether `r` ends a
word. -/
def isSeparator (tbl : UnicodeTables) (r : Nat) : Bool :=
  if r ≤ 0x7F then
    if 0x30 ≤ r ∧ r ≤ 0x39 then false
    else if 0x61 ≤ r ∧ r ≤ 0x7A then false
    else if 0x41 ≤ r ∧ r ≤ 0x5A then false
    else if r = 0x5F then false
    else true
  else if tbl.IsLetter r || tbl.IsDigit r then false
  else tbl.IsSpace r

/-- The closure that `strings.Title` hands to `Map`, run over the runes in
order; `prev` is the variable it captures. -/
def titleRunes (tbl : UnicodeTables) : Nat → List Nat → List Nat
  | _, [] => []
  | prev, r :: rs =>
    (if isSeparator tbl prev then unicode.ToTitle tbl r else r) :: titleRunes tbl r rs

/-- The function `strings.Title`: the first letter of every word mapped to
title case. -/
def Title (tbl : UnicodeTables) (s : GoString) : GoString :=
  (titleRunes tbl 0x20 (utf8.range s)).flatMap utf8.EncodeRune

/-- The function `strings.ToLower`, with its fast path for ASCII strings. -/
def ToLower (tbl : UnicodeTables) (s : GoString) : GoString :=
  let isASCII := s.all (fun c => decide (c < 0x80))
  let hasUpper := s.any (fun c => decide (0x41 ≤ c ∧ c ≤ 0x5A))
  if isASCII then
    if !hasUpper then s
    else s.map (fun c => if 0x41 ≤ c ∧ c ≤ 0x5A then c + (0x61 - 0x41) else c)
  else Map (unicode.ToLower tbl) s

end strings

/-- The function `strconv.FormatBool`. -/
def FormatBool (b : Bool) : GoString := if b then lit "true" else lit "false"

/-! ## The AWS SDK types used by the code

Every field is a pointer in the SDK, hence an `Option`. The elements of a
slice that the SDK decodes from a response are never `nil` and are modelled
as plain values; a `[]*string` and the user's `[]*ec2.Filter`, which
`encoding/json` can fill with `null`, have `Option` elements. -/

namespace ec2

/-- The type `ec2.Filter`. -/
structure Filter where
  Name : Option GoString
  Values : List (Option GoString)
  deriving DecidableEq, Repr

/-- The type `ec2.Tag`. -/
structure Tag where
  Key : Option GoString
  Value : Option GoString
  deriving DecidableEq, Repr

/-- The type `ec2.InstanceState`, of which the code reads the name. -/
structure InstanceState where
  Name : Option GoString
  deriving DecidableEq, Repr

/-- The fields of `ec2.Instance` that the code reads. -/
structure Instance where
  InstanceId : Option GoString
  State : Option InstanceState
  PrivateIpAddress : Option GoString
  PublicIpAddress : Option GoString
  InstanceType : Option GoString
  Tags : Option (List Tag)
  deriving DecidableEq, Repr

/-- The type `ec2.Reservation`, of which the code reads the instances. -/
structure Reservation where
  Instances : List Instance
  deriving DecidableEq, Repr

/-- The type `ec2.DescribeInstancesInput`. -/
structure DescribeInstancesInput where
  Filters : Option (List (Option Filter))
  deriving DecidableEq, Repr

/-- The type `ec2.DescribeInstancesOutput`. -/
structure DescribeInstancesOutput where
  Reservations : List Reservation
  deriving DecidableEq, Repr

/-- The type `ec2.StopInstancesInput`. -/
structure StopInstancesInput where
  DryRun : Option Bool
  InstanceIds : List (Option GoString)
  deriving DecidableEq, Repr

/-- The type `ec2.InstanceStateChange`. -/
structure InstanceStateChange where
  InstanceId : Option GoString
  PreviousState : Option InstanceState
  CurrentState : Option InstanceState
  deriving DecidableEq, Repr

/-- The type `ec2.StopInstancesOutput`. -/
structure StopInstancesOutput where
  StoppingInstances : List InstanceStateChange
  deriving DecidableEq, Repr

end ec2

namespace rds

/-- The type `rds.Endpoint`, of which the code reads the address. -/
structure Endpoint where
  Address : Option GoString
  deriving DecidableEq, Repr

/-- The fields of `rds.DBInstance` that the code reads. -/
structure DBInstance where
  DBInstanceIdentifier : Option GoString
  DBInstanceStatus : Option GoString
  Endpoint : Option Endpoint
  DBInstanceClass : Option GoString
  Engine : Option GoString
  EngineVersion : Option GoString
  MultiAZ : Option Bool
  deriving DecidableEq, Repr

/-- The type `rds.DescribeDBInstancesOutput`. -/
structure DescribeDBInstancesOutput where
  DBInstances : List DBInstance
  deriving DecidableEq, Repr

end rds

/-- The methods of `ec2iface.EC2API` that the code calls: each takes the
request pointer and returns the response pointer and the error. -/
structure EC2API where
  DescribeInstances :
    Option ec2.DescribeInstancesInput → Option ec2.DescribeInstancesOutput × Option GoError
  StopInstances :
    Option ec2.StopInstancesInput → Option ec2.StopInstancesOutput × Option GoError

/-- The method of `rdsiface.RDSAPI` that the code calls; the request
`rds.DescribeDBInstancesInput` is always empty. -/
structure RDSAPI where
  DescribeDBInstances : Option rds.DescribeDBInstancesOutput × Option GoError

/-! ## `function/function.go` -/

/-- The map `filterMap`: the user's filter keys and the EC2 filter names. -/
def filterMap : List (GoString × GoString) :=
  [ (lit "az", lit "availability-zone"),
    (lit "id", lit "instance-id"),
    (lit "name", lit "tag:Name"),
    (lit "state", lit "instance-state-name"),
    (lit "type", lit "instance-type") ]

/-- A lookup `v, ok := m[k]` in a Go map given by its entries. -/
def mapGet : List (GoString × GoString) → GoString → Option GoString
  | [], _ => none
  | (k, v) :: rest, key => if key = k then some v else mapGet rest key

/-- The struct `EC2`. -/
structure EC2 where
  Name : GoString
  IDs : List GoString
  State : GoString
  PrivateIP : GoString
  PublicIP : GoString
  InstanceType : GoString

/-- The struct `EC2Service`. -/
structure EC2Service extends EC2 where
  Filters : Option (List (Option ec2.Filter))
  Service : EC2API

/-- The struct `RDSService`, of which the methods read the service. -/
structure RDSService where
  Service : RDSAPI

/-- The result of Go's `append(s, x)` on a slice that may be `nil`. -/
def appendSlice {α : Type} (s : Option (List α)) (x : α) : Option (List α) :=
  some (s.getD [] ++ [x])

/-- The method `EC2Service.SetFilters`: the receiver after the call and the
returned error; `none` is an index out of range on `userFilter`. -/
def EC2Service.SetFilters (tbl : UnicodeTables) (e : EC2Service) :
    List GoString → Option (EC2Service × Option GoError)
  | [] => some (e, none)
  | filter :: rest =>
    if !strings.Contains filter (lit "=") then
      some (e, some (lit "filter error: invalid filter format"))
    else
      let userFilter := strings.Split filter 0x3D
      match userFilter[0]? with
      | none => none
      | some key =>
        match mapGet filterMap key with
        | none => some (e, some (lit "filter error: invalid filter key: '" ++ key ++ lit "'"))
        | some filterName =>
          match userFilter[1]? with
          | none => none
          | some value =>
            let filterValues : List GoString :=
              [ lit "*" ++ value ++ lit "*",
                lit "*" ++ strings.Title tbl value ++ lit "*",
                lit "*" ++ strings.ToLower tbl value ++ lit "*" ]
            let filterList : ec2.Filter :=
              ⟨some filterName, filterValues.map some⟩
            EC2Service.SetFilters tbl
              { e with Filters := appendSlice e.Filters (some filterList) } rest

/-- The inner loop of `LoadFiltersFromFile`, over the values that
`range filter.Values` took at its start: `i` is the index of the next one and
`vals` the current `filter.Values`. The pointers of `filter.Values` are
distinct, as `encoding/json` allocates each. `none` is a `nil` value. -/
def loadValues (tbl : UnicodeTables) :
    List (Option GoString) → Nat → List (Option GoString) → Option (List (Option GoString))
  | [], _, vals => some vals
  | none :: _, _, _ => none
  | some v :: rest, i, vals =>
    let value := lit "*" ++ v ++ lit "*"
    let valueTitle := strings.Title tbl value
    let valueLower := strings.ToLower tbl value
    loadValues tbl rest (i + 1) (vals.set i (some value) ++ [some valueTitle, some valueLower])

/-- The loop of `LoadFiltersFromFile` over `e.Filters`: the filters after
the loop and the returned error; `none` is a `nil` filter, name or value. -/
def loadFilters (tbl : UnicodeTables) :
    List (Option ec2.Filter) → Option (List (Option ec2.Filter) × Option GoError)
  | [] => some ([], none)
  | none :: _ => none
  | some filter :: rest =>
    match filter.Name with
    | none => none
    | some name =>
      match mapGet filterMap name with
      | none =>
        some (some filter :: rest,
          some (lit "filter error: invalid filter key: '" ++ name ++ lit "'"))
      | some filterName =>
        match loadValues tbl filter.Values 0 filter.Values with
        | none => none
        | some vals =>
          match loadFilters tbl rest with
          | none => none
          | some (rest', err) => some (some ⟨some filterName, vals⟩ :: rest', err)

/-- The file system and the JSON decoder, as `LoadFiltersFromFile` sees them:
`ReadFile` is `ioutil.ReadFile`, and `Decode old content` is the value of
`e.Filters` after `decoder.Decode(&e.Filters)`, whose error is dropped. -/
structure FilterFile where
  ReadFile : GoString → GoString × Option GoError
  Decode : Option (List (Option ec2.Filter)) → GoString → Option (List (Option ec2.Filter))

/-- The method `EC2Service.LoadFiltersFromFile`. -/
def EC2Service.LoadFiltersFromFile (tbl : UnicodeTables) (fs : FilterFile) (e : EC2Service)
    (filtersFile : GoString) : Option (EC2Service × Option GoError) :=
  if !strings.Contains filtersFile (lit ".json") then
    some (e, some (lit "filter file error: invalid file format"))
  else
    match fs.ReadFile filtersFile with
    | (_, some err) => some (e, some err)
    | (fileContent, none) =>
      match fs.Decode e.Filters fileContent with
      | none => some ({ e with Filters := none }, none)
      | some filters =>
        match loadFilters tbl filters with
        | none => none
        | some (filters', err) => some ({ e with Filters := some filters' }, err)

/-- The function `getInstanceName`, started with `instanceName` as found so
far: the value of the last tag whose key is `Name`. `none` is a `nil` key, or
a `nil` value under the key `Name`. -/
def getInstanceNameFrom : GoString → List ec2.Tag → Option GoString
  | instanceName, [] => some instanceName
  | instanceName, tag :: rest =>
    match tag.Key with
    | none => none
    | some key =>
      if key = lit "Name" then
        match tag.Value with
        | none => none
        | some value => getInstanceNameFrom value rest
      else getInstanceNameFrom instanceName rest

/-- The function `getInstanceName`; `instanceName` starts empty. -/
def getInstanceName (tag : List ec2.Tag) : Option GoString := getInstanceNameFrom [] tag

/-- One turn of the inner loop of `GetInstances`: `ec2List` after the
instance `t`. `none` is a `nil` field of `t` that the turn dereferences. -/
def appendInstance (ec2List : List GoString) (t : ec2.Instance) : Option (List GoString) :=
  match t.State with
  | none => none
  | some state =>
    match state.Name with
    | none => none
    | some stateName =>
      if stateName = lit "terminated" then some ec2List
      else
        let named : Option (List GoString) :=
          match t.Tags with
          | some tags =>
            match getInstanceName tags with
            | none => none
            | some name => some (ec2List ++ [name])
          | none => some ec2List
        match named with
        | none => none
        | some ec2List =>
          let publicIP : GoString :=
            match t.PublicIpAddress with
            | some ip => ip
            | none => []
          match t.InstanceId, t.PrivateIpAddress, t.InstanceType with
          | some instanceId, some privateIp, some instanceType =>
            some (ec2List ++ [instanceId, stateName, privateIp, publicIP, instanceType])
          | _, _, _ => none

/-- The inner loop of `GetInstances`, over the instances of one
reservation, from the `ec2List` built so far. -/
def reservationRow : List ec2.Instance → List GoString → Option (List GoString)
  | [], ec2List => some ec2List
  | t :: rest, ec2List =>
    match appendInstance ec2List t with
    | none => none
    | some ec2List => reservationRow rest ec2List

/-- The outer loop of `GetInstances`, over the reservations, from the
`result` built so far: `ec2List` starts empty in every turn and is appended
to `result` at its end. -/
def instanceRows : List ec2.Reservation → List (List GoString) → Option (List (List GoString))
  | [], result => some result
  | i :: rest, result =>
    match reservationRow i.Instances [] with
    | none => none
    | some ec2List => instanceRows rest (result ++ [ec2List])

/-- The method `EC2Service.GetInstances`: the rows and the error; `none` is
a `nil` dereference. -/
def EC2Service.GetInstances (e : EC2Service) : Option (List (List GoString) × Option GoError) :=
  let params : Option ec2.DescribeInstancesInput :=
    match e.Filters with
    | some filters => some ⟨some filters⟩
    | none => none
  match e.Service.DescribeInstances params with
  | (_, some err) => some ([], some err)
  | (none, none) => none
  | (some resp, none) =>
    match instanceRows resp.Reservations [] with
    | none => none
    | some result => some (result, none)

/-- What the program does besides computing: calls of the service, the
spinner, and lines written to the standard output. -/
inductive Event where
  | spinnerStart
  | spinnerStop
  | stopInstances (params : Option ec2.StopInstancesInput)
  | println (line : GoString)
  | printf (text : GoString)
  deriving DecidableEq, Repr

/-- Whether an event is a call of the service. -/
def Event.isCall : Event → Bool
  | .stopInstances _ => true
  | _ => false

/-- Whether an event writes to the standard output. -/
def Event.isPrint : Event → Bool
  | .println _ => true
  | .printf _ => true
  | _ => false

/-- The method `EC2Service.StopInstances`: the calls of the service it
makes, and the output and error it returns. -/
def EC2Service.StopInstances (e : EC2Service) (dryRun : Bool) :
    List Event × (Option ec2.StopInstancesOutput × Option GoError) :=
  let instanceIds : List (Option GoString) :=
    e.IDs.foldl (fun instanceIds id => instanceIds ++ [some id]) []
  let params : Option ec2.StopInstancesInput := some ⟨some dryRun, instanceIds⟩
  ([Event.stopInstances params], e.Service.StopInstances params)

/-- The loop of `stopInstance` over `resp.StoppingInstances`: the lines it
prints, and `none` when it panics on a `nil` field. -/
def printStates : List ec2.InstanceStateChange → List Event × Option Unit
  | [] => ([], some ())
  | data :: rest =>
    match data.InstanceId, data.PreviousState.bind (fun st => st.Name) with
    | some instanceId, some previous =>
      let line1 := Event.println (lit "Previous State(" ++ instanceId ++ lit ") : " ++ previous)
      match data.CurrentState.bind (fun st => st.Name) with
      | some current =>
        let line2 := Event.println (lit "Current State(" ++ instanceId ++ lit ")  : " ++ current)
        let more := printStates rest
        (line1 :: line2 :: Event.printf (lit "\n") :: more.1, more.2)
      | none => ([line1], none)
    | _, _ => ([], none)

/-- The command `stopInstance` of `cmd/nephele/ec2/stop.go`, for the service
`sess` bound to the session, the flag `dryRun` and the arguments `args`: the
events in order and the returned error; `none` is a panic. -/
def stopInstance (sess : EC2API) (dryRun : Bool) (args : List GoString) :
    List Event × Option (Option GoError) :=
  let instanceId : EC2 := ⟨[], args, [], [], [], []⟩
  let ec2Service : EC2Service := ⟨instanceId, none, sess⟩
  let call := ec2Service.StopInstances dryRun
  match call.2 with
  | (_, some err) => (Event.spinnerStart :: call.1 ++ [Event.spinnerStop], some (some err))
  | (none, none) => (Event.spinnerStart :: call.1 ++ [Event.spinnerStop], none)
  | (some resp, none) =>
    let printed := printStates resp.StoppingInstances
    (Event.spinnerStart :: call.1 ++ [Event.spinnerStop] ++ printed.1,
      printed.2.map (fun _ => none))

/-- One turn of the loop of `GetRDSInstances`: `result` after `instance`.
`WordWrap` is `utils.WordWrap`, which the embedding does not fix. `none` is a
`nil` field that the turn dereferences. -/
def appendDBInstance (WordWrap : GoString → Nat → Nat → GoString)
    (result : List (List GoString)) (inst : rds.DBInstance) : Option (List (List GoString)) :=
  match inst.DBInstanceStatus with
  | none => none
  | some status =>
    if status = lit "terminated" then some result
    else
      match inst.DBInstanceIdentifier, inst.Endpoint.bind (fun ep => ep.Address) with
      | some identifier, some address =>
        let dbInstanceID := WordWrap identifier 0x2D 2
        let endpoint := WordWrap address 0x2E 2
        match inst.Engine, inst.EngineVersion with
        | some engine, some engineVersion =>
          let engineInfo := engine ++ lit "/" ++ engineVersion
          match inst.DBInstanceClass, inst.MultiAZ with
          | some dbInstanceClass, some multiAZ =>
            let rdsList : List GoString :=
              [] ++ [dbInstanceID, status, endpoint, dbInstanceClass, engineInfo,
                FormatBool multiAZ]
            some (result ++ [rdsList])
          | _, _ => none
        | _, _ => none
      | _, _ => none

/-- The loop of `GetRDSInstances` over `resp.DBInstances`, from the `result`
built so far. -/
def dbInstanceRows (WordWrap : GoString → Nat → Nat → GoString) :
    List rds.DBInstance → List (List GoString) → Option (List (List GoString))
  | [], result => some result
  | inst :: rest, result =>
    match appendDBInstance WordWrap result inst with
    | none => none
    | some result => dbInstanceRows WordWrap rest result

/-- The method `RDSService.GetRDSInstances`: the rows and the error; `none`
is a `nil` dereference. -/
def RDSService.GetRDSInstances (WordWrap : GoString → Nat → Nat → GoString) (r : RDSService) :
    Option (List (List GoString) × Option GoError) :=
  match r.Service.DescribeDBInstances with
  | (_, some err) => some ([], some err)
  | (none, none) => none
  | (some resp, none) =>
    match dbInstanceRows WordWrap resp.DBInstances [] with
    | none => none
    | some result => some (result, none)

/-! ## Words of the specification -/

/-- The five keys of `filterMap`. -/
def filterKeys : List GoString := [lit "az", lit "id", lit "name", lit "state", lit "type"]

/-- The provider's filter name for each user key, as the specification lists
them. -/
def providerKey (k : GoString) : GoString :=
  if k = lit "az" then lit "availability-zone"
  else if k = lit "id" then lit "instance-id"
  else if k = lit "name" then lit "tag:Name"
  else if k = lit "state" then lit "instance-state-name"
  else lit "instance-type"

/-- The text of a filter before its first `=`. -/
def keyOf (f : GoString) : GoString := f.takeWhile (fun c => c != 0x3D)

/-- All of the text of a filter after its first `=`. -/
def afterEq (f : GoString) : GoString := (f.dropWhile (fun c => c != 0x3D)).drop 1

/-- The text of a filter between its first `=` and the next one, or the end
of the filter when there is no other. -/
def firstValue (f : GoString) : GoString := (afterEq f).takeWhile (fun c => c != 0x3D)

/-- A value wrapped as `*value*`. -/
def wrap (v : GoString) : GoString := lit "*" ++ v ++ lit "*"

/-- The three matcher patterns built from a value: the value, its title case
and its lower case, each wrapped. -/
def patterns (tbl : UnicodeTables) (v : GoString) : List GoString :=
  [wrap v, wrap (strings.Title tbl v), wrap (strings.ToLower tbl v)]

/-- The filter that the specification's `translate` emits for a key and a
value. -/
def translated (tbl : UnicodeTables) (k v : GoString) : ec2.Filter :=
  ⟨some (providerKey k), (patterns tbl v).map some⟩

/-- The values that the specification gives a filter loaded from the file:
the wrapped values in their order, then for each value in order the title
case and the lower case of the wrapped value. -/
def loadedValues (tbl : UnicodeTables) (vs : List GoString) : List GoString :=
  vs.map wrap ++ vs.flatMap (fun v => [strings.Title tbl (wrap v), strings.ToLower tbl (wrap v)])

/-- A filter as `encoding/json` decodes it from a name and string values. -/
def decodedFilter (p : GoString × List GoString) : Option ec2.Filter :=
  some ⟨some p.1, p.2.map some⟩

/-- The error of an unknown filter key. -/
def keyError (name : GoString) : GoError :=
  lit "filter error: invalid filter key: '" ++ name ++ lit "'"

/-- A filter offends when it has no `=` or its key is not a key of
`filterMap`. -/
def Offending (f : GoString) : Prop := 0x3D ∉ f ∨ keyOf f ∉ filterKeys

instance : DecidablePred Offending := fun f => by
  unfold Offending
  exact inferInstance

/-- The error that the specification gives for an offending filter. -/
def filterError (f : GoString) : GoError :=
  if 0x3D ∈ f then lit "filter error: invalid filter key: '" ++ keyOf f ++ lit "'"
  else lit "filter error: invalid filter format"

/-- Tables that leave every rune beyond ASCII alone, for evaluation. -/
def plainTables : UnicodeTables :=
  ⟨fun _ r => r, fun _ => false, fun _ => false, fun _ => false⟩

/-- An `EC2Service` with no IDs, no filters and a service that answers
nothing, for evaluation. -/
def emptyService : EC2Service :=
  ⟨⟨[], [], [], [], [], []⟩, none, ⟨fun _ => (none, none), fun _ => (none, none)⟩⟩

/-- A DB instance all of whose fields are set. -/
structure DBRecord where
  identifier : GoString
  status : GoString
  address : GoString
  dbClass : GoString
  engine : GoString
  version : GoString
  multiAZ : Bool

/-- The `rds.DBInstance` of a record: every pointer is set. -/
def DBRecord.toSDK (d : DBRecord) : rds.DBInstance :=
  ⟨some d.identifier, some d.status, some ⟨some d.address⟩, some d.dbClass, some d.engine,
    some d.version, some d.multiAZ⟩

/-- The row that the specification gives a DB instance: wrapped identifier,
status, wrapped endpoint address, class, engine and version joined by `/`,
and the Multi-AZ flag as `true` or `false`. -/
def dbRow (WordWrap : GoString → Nat → Nat → GoString) (d : DBRecord) : List GoString :=
  [ WordWrap d.identifier 0x2D 2, d.status, WordWrap d.address 0x2E 2, d.dbClass,
    d.engine ++ lit "/" ++ d.version, if d.multiAZ then lit "true" else lit "false" ]

/-- The request of `StopInstances` for a flag and a list of IDs. -/
def stopRequest (dryRun : Bool) (ids : List GoString) : Option ec2.StopInstancesInput :=
  some ⟨some dryRun, ids.map some⟩

/-- A file system whose every file decodes to the one filter `az` with the
values `a` and `b`, for evaluation. -/
def sampleFile : FilterFile :=
  ⟨fun _ => ([], none), fun _ _ => some [some ⟨some (lit "az"), [some (lit "a"), some (lit "b")]⟩]⟩

/-- An EC2 service that answers every `DescribeInstances` with `resp`, for
evaluation. -/
def describing (resp : ec2.DescribeInstancesOutput) : EC2Service :=
  ⟨⟨[], [], [], [], [], []⟩, none, ⟨fun _ => (some resp, none), fun _ => (none, none)⟩⟩

/-- A running instance, for evaluation. -/
def runningInstance (name : Option GoString) (id ip : GoString) : ec2.Instance :=
  ⟨some id, some ⟨some (lit "running")⟩, some ip, none, some (lit "t2.micro"),
    name.map (fun n => [⟨some (lit "Name"), some n⟩])⟩

/-- A terminated instance, for evaluation. -/
def terminatedInstance (id : GoString) : ec2.Instance :=
  ⟨some id, some ⟨some (lit "terminated")⟩, none, none, some (lit "t2.micro"), none⟩

/-- An EC2 service whose `StopInstances` fails with `err`, for evaluation. -/
def failingStop (err : GoError) : EC2API :=
  ⟨fun _ => (none, none), fun _ => (none, some err)⟩

/-- An RDS service that lists an available and a terminated instance, for
evaluation. -/
def sampleRDS : RDSService :=
  ⟨⟨(some ⟨[ DBRecord.toSDK ⟨lit "db-1", lit "available", lit "db-1.example.com",
        lit "db.t2.micro", lit "mysql", lit "5.7", true⟩,
      DBRecord.toSDK ⟨lit "db-2", lit "terminated", lit "db-2.example.com",
        lit "db.t2.micro", lit "mysql", lit "5.7", false⟩ ]⟩, none)⟩⟩

/-- The DB instances of a response: an available instance, and an instance
in status `creating` whose endpoint is not set yet. -/
def creatingInstances : List rds.DBInstance :=
  [ ⟨some (lit "db-1"), some (lit "available"), some ⟨some (lit "db.example.com")⟩,
      some (lit "db.t2.micro"), some (lit "mysql"), some (lit "5.7"), some true⟩,
    ⟨some (lit "db-2"), some (lit "creating"), none,
      some (lit "db.t2.micro"), some (lit "mysql"), some (lit "5.7"), some false⟩ ]

/-- An RDS service that answers with `creatingInstances`. -/
def creatingRDS : RDSService := ⟨⟨(some ⟨creatingInstances⟩, none)⟩⟩

/-- A word wrapper that leaves the text alone, for evaluation. -/
def noWrap : GoString → Nat → Nat → GoString := fun text _ _ => text

/-! ## Lemmas on the string functions -/

theorem lit_eq : lit "=" = [0x3D] := by decide

theorem lit_star : lit "*" = [0x2A] := by decide

theorem contains_eq_iff (s : GoString) : strings.Contains s [0x3D] = true ↔ 0x3D ∈ s := by
  induction s with
  | nil => simp [strings.Contains]
  | cons c cs ih =>
    simp only [strings.Contains, strings.startsWith, Bool.or_eq_true, Bool.and_eq_true, ih,
      List.mem_cons, beq_iff_eq]
    constructor
    · rintro (⟨h, -⟩ | h)
      · exact Or.inl h.symm
      · exact Or.inr h
    · rintro (h | h)
      · exact Or.inl ⟨h.symm, trivial⟩
      · exact Or.inr h

theorem split_ne_nil (s : GoString) (sep : Nat) : strings.Split s sep ≠ [] := by
  induction s with
  | nil => simp [strings.Split]
  | cons c cs ih =>
    unfold strings.Split
    split
    · simp
    · split <;> simp

theorem split_of_not_mem (s : GoString) (sep : Nat) (h : sep ∉ s) :
    strings.Split s sep = [s] := by
  induction s with
  | nil => simp [strings.Split]
  | cons c cs ih =>
    simp only [List.mem_cons, not_or] at h
    have hc : c ≠ sep := fun hc => h.1 hc.symm
    simp [strings.Split, hc, ih h.2]

theorem split_append (a b : GoString) (sep : Nat) (h : sep ∉ a) :
    strings.Split (a ++ sep :: b) sep = a :: strings.Split b sep := by
  induction a with
  | nil => simp [strings.Split]
  | cons c cs ih =>
    simp only [List.mem_cons, not_or] at h
    have hc : c ≠ sep := fun hc => h.1 hc.symm
    simp [strings.Split, hc, ih h.2]

theorem split_head (s : GoString) (sep : Nat) :
    (strings.Split s sep)[0]? = some (s.takeWhile (fun c => c != sep)) := by
  induction s with
  | nil => simp [strings.Split]
  | cons c cs ih =>
    unfold strings.Split
    by_cases hc : c = sep
    · simp [hc]
    · rw [if_neg hc]
      cases hs : strings.Split cs sep with
      | nil => exact absurd hs (split_ne_nil cs sep)
      | cons p ps =>
        rw [hs] at ih
        simp at ih
        simp [hc, ih]

theorem keyOf_not_mem (f : GoString) : 0x3D ∉ keyOf f := by
  intro h
  have := List.mem_takeWhile_imp h
  simp at this

theorem keyOf_append_afterEq (f : GoString) (h : 0x3D ∈ f) :
    f = keyOf f ++ 0x3D :: afterEq f := by
  induction f with
  | nil => simp at h
  | cons c cs ih =>
    by_cases hc : c = 0x3D
    · simp [keyOf, afterEq, hc, List.takeWhile, List.dropWhile]
    · have hcs : 0x3D ∈ cs := by
        rcases List.mem_cons.1 h with h | h
        · exact absurd h.symm hc
        · exact h
      have := ih hcs
      simp only [keyOf, afterEq] at this ⊢
      have hb : (c != 0x3D) = true := by simpa using hc
      rw [List.takeWhile_cons, List.dropWhile_cons]
      simp only [hb, if_true, List.cons_append, List.cons.injEq, true_and]
      exact this

theorem split_filter (f : GoString) (h : 0x3D ∈ f) :
    strings.Split f 0x3D = keyOf f :: strings.Split (afterEq f) 0x3D := by
  conv_lhs => rw [keyOf_append_afterEq f h]
  exact split_append _ _ _ (keyOf_not_mem f)

theorem mapGet_filterMap (k : GoString) :
    mapGet filterMap k = if k ∈ filterKeys then some (providerKey k) else none := by
  simp only [filterMap, mapGet, filterKeys, providerKey, List.mem_cons, List.mem_singleton,
    List.not_mem_nil, or_false]
  by_cases h1 : k = lit "az"
  · simp [h1]
  by_cases h2 : k = lit "id"
  · subst h2; decide
  by_cases h3 : k = lit "name"
  · subst h3; decide
  by_cases h4 : k = lit "state"
  · subst h4; decide
  by_cases h5 : k = lit "type"
  · subst h5; decide
  simp [h1, h2, h3, h4, h5]

/-! ## Lemmas on runes, `Title` and `ToLower` -/

theorem first_cases (b : Nat) :
    utf8.first b = 0xF0 ∨ utf8.first b = 0xF1 ∨ utf8.first b = 0x02 ∨ utf8.first b = 0x13 ∨
      utf8.first b = 0x03 ∨ utf8.first b = 0x23 ∨ utf8.first b = 0x34 ∨ utf8.first b = 0x04 ∨
      utf8.first b = 0x44 := by
  unfold utf8.first
  split_ifs <;> simp

theorem decode_append_star (s0 : Nat) (t : GoString) :
    utf8.DecodeRuneInString (s0 :: t ++ [0x2A]) = utf8.DecodeRuneInString (s0 :: t) := by
  rcases first_cases s0 with h | h | h | h | h | h | h | h | h <;>
  rcases t with _ | ⟨a, _ | ⟨b, _ | ⟨c, t⟩⟩⟩ <;>
  simp [utf8.DecodeRuneInString, h, utf8.acceptRanges] <;>
  split_ifs <;> first | rfl | omega

theorem decode_width (s0 : Nat) (t : GoString) :
    1 ≤ (utf8.DecodeRuneInString (s0 :: t)).2 ∧
      (utf8.DecodeRuneInString (s0 :: t)).2 ≤ t.length + 1 := by
  have hf := first_cases s0
  simp only [utf8.DecodeRuneInString, List.getD_cons_zero, List.length_cons]
  generalize utf8.first s0 = x at hf ⊢
  split_ifs <;> simp only [] <;> omega

theorem rangeAux_append_star (n : Nat) (s : GoString) (h : s.length ≤ n) :
    utf8.rangeAux (n + 1) (s ++ [0x2A]) = utf8.rangeAux n s ++ [0x2A] := by
  induction n generalizing s with
  | zero =>
    have : s = [] := List.length_eq_zero.1 (Nat.le_zero.1 h)
    subst this
    simp [utf8.rangeAux, utf8.DecodeRuneInString, utf8.first]
  | succ m ih =>
    cases s with
    | nil => simp [utf8.rangeAux, utf8.DecodeRuneInString, utf8.first]
    | cons s0 t =>
      have hw := decode_width s0 t
      have hd := decode_append_star s0 t
      simp only [List.length_cons] at h
      have hdrop : (s0 :: t ++ [0x2A]).drop (utf8.DecodeRuneInString (s0 :: t)).2 =
          (s0 :: t).drop (utf8.DecodeRuneInString (s0 :: t)).2 ++ [0x2A] := by
        rw [List.drop_append_of_le_length]
        simpa using hw.2
      have hlen : ((s0 :: t).drop (utf8.DecodeRuneInString (s0 :: t)).2).length ≤ m := by
        simp only [List.length_drop, List.length_cons]
        omega
      have := ih _ hlen
      rw [show (s0 :: t) ++ [0x2A] = s0 :: (t ++ [0x2A]) from rfl]
      rw [utf8.rangeAux, utf8.rangeAux]
      rw [show s0 :: (t ++ [0x2A]) = s0 :: t ++ [0x2A] from rfl, hd, hdrop, this]
      rfl

theorem rangeAux_fuel (n m : Nat) (s : GoString) (hn : s.length ≤ n) (hm : s.length ≤ m) :
    utf8.rangeAux n s = utf8.rangeAux m s := by
  induction n generalizing m s with
  | zero =>
    have : s = [] := List.length_eq_zero.1 (Nat.le_zero.1 hn)
    subst this
    cases m <;> rfl
  | succ n ih =>
    cases s with
    | nil => cases m <;> rfl
    | cons s0 t =>
      cases m with
      | zero => simp at hm
      | succ m =>
        have hw := decode_width s0 t
        simp only [List.length_cons] at hn hm
        have hlen : ((s0 :: t).drop (utf8.DecodeRuneInString (s0 :: t)).2).length ≤ t.length := by
          simp only [List.length_drop, List.length_cons]
          omega
        simp only [utf8.rangeAux]
        rw [ih m _ (by omega) (by omega)]

theorem range_eq_rangeAux (n : Nat) (s : GoString) (h : s.length ≤ n) :
    utf8.rangeAux n s = utf8.range s :=
  rangeAux_fuel n s.length s h (le_refl _)

theorem range_append_star (s : GoString) : utf8.range (s ++ [0x2A]) = utf8.range s ++ [0x2A] := by
  unfold utf8.range
  rw [List.length_append, List.length_singleton]
  exact rangeAux_append_star _ _ (le_refl _)

theorem range_star_cons (s : GoString) : utf8.range (0x2A :: s) = 0x2A :: utf8.range s := by
  simp [utf8.range, utf8.rangeAux, utf8.DecodeRuneInString, utf8.first]

theorem range_examples :
    utf8.range (lit "a=b") = [0x61, 0x3D, 0x62] ∧
    utf8.range [0xE2, 0x82, 0xAC] = [0x20AC] ∧
    utf8.EncodeRune 0x20AC = [0xE2, 0x82, 0xAC] ∧
    utf8.range [0xF0, 0x9F, 0x98, 0x80, 0x41] = [0x1F600, 0x41] ∧
    utf8.EncodeRune 0x1F600 = [0xF0, 0x9F, 0x98, 0x80] ∧
    utf8.range [0xC3, 0xA9] = [0xE9] ∧
    utf8.range [0xE2, 0x82] = [utf8.RuneError, utf8.RuneError] ∧
    utf8.range [0xC0, 0x80] = [utf8.RuneError, utf8.RuneError] ∧
    utf8.range [0xED, 0xA0, 0x80] = [utf8.RuneError, utf8.RuneError, utf8.RuneError] := by
  decide

theorem wrap_eq (v : GoString) : wrap v = 0x2A :: (v ++ [0x2A]) := by
  simp [wrap, lit_star]

theorem titleRunes_append_star (tbl : UnicodeTables) (prev : Nat) (rs : List Nat) :
    strings.titleRunes tbl prev (rs ++ [0x2A]) = strings.titleRunes tbl prev rs ++ [0x2A] := by
  induction rs generalizing prev with
  | nil => simp [strings.titleRunes, unicode.ToTitle, unicode.MaxASCII]
  | cons r rs ih => simp [strings.titleRunes, ih]

theorem titleRunes_star_cons (tbl : UnicodeTables) (rs : List Nat) :
    strings.titleRunes tbl 0x20 (0x2A :: rs) = 0x2A :: strings.titleRunes tbl 0x20 rs := by
  cases rs with
  | nil => simp [strings.titleRunes, strings.isSeparator, unicode.ToTitle, unicode.MaxASCII]
  | cons r rs => simp [strings.titleRunes, strings.isSeparator, unicode.ToTitle, unicode.MaxASCII]

theorem title_wrap (tbl : UnicodeTables) (v : GoString) :
    strings.Title tbl (wrap v) = wrap (strings.Title tbl v) := by
  simp only [strings.Title, wrap_eq, range_star_cons, range_append_star, titleRunes_star_cons,
    titleRunes_append_star]
  simp [utf8.EncodeRune]

theorem map_wrap (mapping : Nat → Nat) (h : mapping 0x2A = 0x2A) (v : GoString) :
    strings.Map mapping (wrap v) = wrap (strings.Map mapping v) := by
  simp only [strings.Map, wrap_eq, range_star_cons, range_append_star]
  simp [utf8.EncodeRune, h]

theorem toLower_wrap (tbl : UnicodeTables) (v : GoString) :
    strings.ToLower tbl (wrap v) = wrap (strings.ToLower tbl v) := by
  have hall : (wrap v).all (fun c => decide (c < 0x80)) = v.all (fun c => decide (c < 0x80)) := by
    simp [wrap_eq]
  have hany : (wrap v).any (fun c => decide (0x41 ≤ c ∧ c ≤ 0x5A)) =
      v.any (fun c => decide (0x41 ≤ c ∧ c ≤ 0x5A)) := by
    simp [wrap_eq]
  have hmap : unicode.ToLower tbl 0x2A = 0x2A := by
    simp [unicode.ToLower, unicode.MaxASCII]
  simp only [strings.ToLower, hall, hany]
  split
  · split
    · rfl
    · simp [wrap_eq]
  · exact map_wrap _ hmap v

/-! ## Lemmas on `SetFilters` -/

theorem setFilters_cons (tbl : UnicodeTables) (e : EC2Service) (f : GoString)
    (rest : List GoString) :
    EC2Service.SetFilters tbl e (f :: rest) =
      if 0x3D ∈ f ∧ keyOf f ∈ filterKeys then
        EC2Service.SetFilters tbl
          { e with Filters :=
              appendSlice e.Filters (some (translated tbl (keyOf f) (firstValue f))) } rest
      else some (e, some (filterError f)) := by
  by_cases h : 0x3D ∈ f
  · have hc : strings.Contains f (lit "=") = true := by
      rw [lit_eq]; exact (contains_eq_iff f).2 h
    have h0 : (strings.Split f 0x3D)[0]? = some (keyOf f) := split_head f 0x3D
    have h1 : (strings.Split f 0x3D)[1]? = some (firstValue f) := by
      rw [split_filter f h]
      simpa using split_head (afterEq f) 0x3D
    by_cases hk : keyOf f ∈ filterKeys
    · have hm : mapGet filterMap (keyOf f) = some (providerKey (keyOf f)) := by
        rw [mapGet_filterMap, if_pos hk]
      simp only [EC2Service.SetFilters, hc, h0, h1, hm, h, hk]
      simp [translated, patterns, wrap]
    · have hm : mapGet filterMap (keyOf f) = none := by
        rw [mapGet_filterMap, if_neg hk]
      simp [EC2Service.SetFilters, hc, h0, hm, h, hk, filterError]
  · have hc : strings.Contains f (lit "=") = false := by
      rw [lit_eq]
      cases hb : strings.Contains f [0x3D] with
      | false => rfl
      | true => exact absurd ((contains_eq_iff f).1 hb) h
    simp [EC2Service.SetFilters, hc, h, filterError]

theorem not_offending_iff (f : GoString) :
    ¬ Offending f ↔ 0x3D ∈ f ∧ keyOf f ∈ filterKeys := by
  unfold Offending
  tauto

theorem filterKeys_no_eq (k : GoString) (h : k ∈ filterKeys) : 0x3D ∉ k := by
  simp only [filterKeys, List.mem_cons, List.mem_singleton, List.not_mem_nil, or_false] at h
  rcases h with h | h | h | h | h <;> subst h <;> decide

theorem takeWhile_ne_of_not_mem (v : GoString) (h : 0x3D ∉ v) :
    v.takeWhile (fun c => c != 0x3D) = v := by
  rw [List.takeWhile_eq_self_iff]
  intro c hc
  have : c ≠ 0x3D := fun hc' => h (hc' ▸ hc)
  simpa using this

theorem keyOf_pair (k v : GoString) (h : 0x3D ∉ k) : keyOf (k ++ 0x3D :: v) = k := by
  induction k with
  | nil => simp [keyOf]
  | cons c cs ih =>
    simp only [List.mem_cons, not_or] at h
    have hc : c ≠ 0x3D := fun hc => h.1 hc.symm
    have := ih h.2
    simp only [keyOf] at this ⊢
    simp [List.takeWhile_cons, hc, this]

theorem afterEq_pair (k v : GoString) (h : 0x3D ∉ k) : afterEq (k ++ 0x3D :: v) = v := by
  induction k with
  | nil => simp [afterEq]
  | cons c cs ih =>
    simp only [List.mem_cons, not_or] at h
    have hc : c ≠ 0x3D := fun hc => h.1 hc.symm
    have := ih h.2
    simp only [afterEq] at this ⊢
    simp [List.dropWhile_cons, hc, this]

/-- What `SetFilters` reads of one filter that contains `=` and whose key is in
`filterMap`: as key the text before the first `=`, as value the text between
the first `=` and the next one (the end of the filter when there is no
other), which is all of the text after the first `=` exactly when that text
has no `=`. -/
theorem setFilters_single_filter (tbl : UnicodeTables) (e : EC2Service)
    (f : GoString) (h : 0x3D ∈ f) (hk : keyOf f ∈ filterKeys) :
    (∃ e', EC2Service.SetFilters tbl e [f] = some (e', none) ∧
      e'.Filters = appendSlice e.Filters (some (translated tbl (keyOf f) (firstValue f)))) ∧
    (∃ tail, afterEq f = firstValue f ++ tail ∧ 0x3D ∉ firstValue f ∧
      (tail = [] ∨ tail.head? = some 0x3D)) ∧
    (firstValue f = afterEq f ↔ 0x3D ∉ afterEq f) := by
  refine ⟨?_, ?_, ?_⟩
  · rw [setFilters_cons, if_pos ⟨h, hk⟩]
    exact ⟨_, rfl, rfl⟩
  · refine ⟨(afterEq f).dropWhile (fun c => c != 0x3D), ?_, ?_, ?_⟩
    · exact (List.takeWhile_append_dropWhile _ _).symm
    · exact keyOf_not_mem (afterEq f)
    · cases hd : (afterEq f).dropWhile (fun c => c != 0x3D) with
      | nil => exact Or.inl rfl
      | cons c cs =>
        right
        have := List.head_dropWhile_not (fun c => c != 0x3D) (afterEq f) (by simp [hd])
        simp only [hd, List.head_cons] at this
        simpa using this
  · constructor
    · intro heq
      rw [← heq]
      exact keyOf_not_mem (afterEq f)
    · exact takeWhile_ne_of_not_mem _

/-! ## Lemmas on `LoadFiltersFromFile` -/

theorem loadValues_spec (tbl : UnicodeTables) (rest : List GoString)
    (done extra : List (Option GoString)) :
    loadValues tbl (rest.map some) done.length (done ++ rest.map some ++ extra) =
      some (done ++ (rest.map wrap).map some ++ extra ++
        (rest.flatMap
          (fun v => [strings.Title tbl (wrap v), strings.ToLower tbl (wrap v)])).map some) := by
  induction rest generalizing done extra with
  | nil => simp [loadValues]
  | cons v rest ih =>
    have hset : (done ++ (some v :: rest.map some) ++ extra).set done.length
          (some (lit "*" ++ v ++ lit "*")) =
        (done ++ [some (wrap v)]) ++ rest.map some ++ extra := by
      simp [List.set_append, wrap]
    have := ih (done ++ [some (wrap v)])
      (extra ++ [some (strings.Title tbl (wrap v)), some (strings.ToLower tbl (wrap v))])
    simp only [List.length_append, List.length_singleton] at this
    simp only [List.map_cons, loadValues, hset]
    rw [← List.append_assoc] at this
    rw [show wrap v = lit "*" ++ v ++ lit "*" from rfl] at this ⊢
    rw [this]
    simp [wrap]

theorem loadValues_all (tbl : UnicodeTables) (vs : List GoString) :
    loadValues tbl (vs.map some) 0 (vs.map some) = some ((loadedValues tbl vs).map some) := by
  have := loadValues_spec tbl vs [] []
  simpa [loadedValues] using this

theorem loadFilters_good (tbl : UnicodeTables) (good : List (GoString × List GoString))
    (hkeys : ∀ p ∈ good, p.1 ∈ filterKeys) (tail : List (Option ec2.Filter))
    (tail' : List (Option ec2.Filter)) (err : Option GoError)
    (htail : loadFilters tbl tail = some (tail', err)) :
    loadFilters tbl (good.map decodedFilter ++ tail) =
      some (good.map (fun p => some ⟨some (providerKey p.1), (loadedValues tbl p.2).map some⟩)
        ++ tail', err) := by
  induction good with
  | nil => simpa using htail
  | cons p rest ih =>
    have hp := hkeys p (List.mem_cons_self _ _)
    have hm : mapGet filterMap p.1 = some (providerKey p.1) := by
      rw [mapGet_filterMap, if_pos hp]
    have := ih (fun q hq => hkeys q (List.mem_cons_of_mem _ hq))
    simp only [List.map_cons, List.cons_append, decodedFilter, loadFilters, hm, loadValues_all,
      List.append_eq]
    simp only [decodedFilter] at this
    rw [this]

/-! ## Lemmas on the tables and on `StopInstances` -/

theorem instanceRows_length (rs : List ec2.Reservation) (result rows : List (List GoString))
    (h : instanceRows rs result = some rows) : rows.length = result.length + rs.length := by
  induction rs generalizing result with
  | nil =>
    simp only [instanceRows, Option.some.injEq] at h
    simp [← h]
  | cons i rest ih =>
    simp only [instanceRows] at h
    cases hrow : reservationRow i.Instances [] with
    | none => simp [hrow] at h
    | some row =>
      simp only [hrow] at h
      rw [ih _ h]
      simp only [List.length_append, List.length_cons, List.length_nil]
      omega

theorem reservationRow_single (name id state privateIp instanceType : GoString)
    (publicIp : Option GoString) (tags : List ec2.Tag) (hs : state ≠ lit "terminated")
    (hn : getInstanceName tags = some name) :
    reservationRow
        [⟨some id, some ⟨some state⟩, some privateIp, publicIp, some instanceType, some tags⟩] [] =
      some [name, id, state, privateIp, publicIp.getD [], instanceType] := by
  cases publicIp <;> simp [reservationRow, appendInstance, hs, hn]

theorem getInstances_row_count (e : EC2Service) (rows : List (List GoString))
    (resp : ec2.DescribeInstancesOutput) (err : Option GoError)
    (hresp : ∀ q, e.Service.DescribeInstances q = (some resp, none))
    (h : e.GetInstances = some (rows, err)) :
    rows.length = resp.Reservations.length := by
  simp only [EC2Service.GetInstances, hresp] at h
  cases hrows : instanceRows resp.Reservations [] with
  | none => simp [hrows] at h
  | some result =>
    simp only [hrows, Option.some.injEq, Prod.mk.injEq] at h
    rw [← h.1, instanceRows_length _ _ _ hrows]
    simp

theorem appendDBInstance_record (WordWrap : GoString → Nat → Nat → GoString)
    (result : List (List GoString)) (d : DBRecord) :
    appendDBInstance WordWrap result d.toSDK =
      some (if d.status = lit "terminated" then result else result ++ [dbRow WordWrap d]) := by
  by_cases h : d.status = lit "terminated"
  · simp [appendDBInstance, DBRecord.toSDK, h]
  · cases hm : d.multiAZ <;>
      simp [appendDBInstance, DBRecord.toSDK, h, dbRow, FormatBool, hm]

theorem dbInstanceRows_records (WordWrap : GoString → Nat → Nat → GoString)
    (ds : List DBRecord) (result : List (List GoString)) :
    dbInstanceRows WordWrap (ds.map DBRecord.toSDK) result =
      some (result ++
        (ds.filter (fun d => decide (d.status ≠ lit "terminated"))).map (dbRow WordWrap)) := by
  induction ds generalizing result with
  | nil => simp [dbInstanceRows]
  | cons d rest ih =>
    simp only [List.map_cons, dbInstanceRows, appendDBInstance_record, ih]
    by_cases h : d.status = lit "terminated"
    · simp [h]
    · simp [h]

theorem foldl_append_some (ids : List GoString) (acc : List (Option GoString)) :
    ids.foldl (fun instanceIds id => instanceIds ++ [some id]) acc = acc ++ ids.map some := by
  induction ids generalizing acc with
  | nil => simp
  | cons id rest ih => simp [ih]

theorem stopInstances_eq (e : EC2Service) (dryRun : Bool) :
    e.StopInstances dryRun =
      ([Event.stopInstances (stopRequest dryRun e.IDs)],
        e.Service.StopInstances (stopRequest dryRun e.IDs)) := by
  simp [EC2Service.StopInstances, stopRequest, foldl_append_some]

theorem printStates_no_call (cs : List ec2.InstanceStateChange) :
    (printStates cs).1.filter Event.isCall = [] := by
  induction cs with
  | nil => rfl
  | cons data rest ih =>
    unfold printStates
    split
    · split
      · simp [Event.isCall, ih]
      · simp [Event.isCall]
    · rfl

/-- When `DescribeDBInstances` fails, `GetRDSInstances` returns no rows and
that error; when it succeeds with DB instances all of whose fields are set,
it returns, in response order, one row for every instance whose status is
not `terminated`, and every row has six fields: wrapped identifier, status,
wrapped endpoint address, class, `Engine/EngineVersion`, and the Multi-AZ
flag as `true` or `false`. -/
theorem getRDSInstances_rows_of_records (WordWrap : GoString → Nat → Nat → GoString)
    (r : RDSService) :
    (∀ resp err, r.Service.DescribeDBInstances = (resp, some err) →
      r.GetRDSInstances WordWrap = some ([], some err)) ∧
    (∀ ds : List DBRecord, r.Service.DescribeDBInstances = (some ⟨ds.map DBRecord.toSDK⟩, none) →
      r.GetRDSInstances WordWrap =
        some ((ds.filter (fun d => decide (d.status ≠ lit "terminated"))).map (dbRow WordWrap),
          none)) ∧
    (∀ d : DBRecord, (dbRow WordWrap d).length = 6 ∧
      (dbRow WordWrap d)[5]? = some (if d.multiAZ then lit "true" else lit "false")) := by
  refine ⟨?_, ?_, ?_⟩
  · intro resp err h
    simp [RDSService.GetRDSInstances, h]
  · intro ds h
    simp [RDSService.GetRDSInstances, h, dbInstanceRows_records]
  · intro d
    simp [dbRow]

/-- The rows of a service that lists an available and a terminated instance,
both with every field set. -/
theorem getRDSInstances_rows_example :
    sampleRDS.GetRDSInstances noWrap =
      some ([[lit "db-1", lit "available", lit "db-1.example.com", lit "db.t2.micro",
        lit "mysql/5.7", lit "true"]], none) :=
  (getRDSInstances_rows_of_records noWrap sampleRDS).2.1
    [ ⟨lit "db-1", lit "available", lit "db-1.example.com", lit "db.t2.micro", lit "mysql",
        lit "5.7", true⟩,
      ⟨lit "db-2", lit "terminated", lit "db-2.example.com", lit "db.t2.micro", lit "mysql",
        lit "5.7", false⟩ ] rfl

/-! ## Claims on `SetFilters` -/

/-- C1: `SetFilters` never panics; it returns an error exactly when some
filter of the list has no `=` or has, before its first `=`, a key that is not
one of the five keys of `filterMap`; and the error is the one of the first
such filter in list order: the format error when `=` is missing, the key
error naming the key otherwise. -/
theorem C1_setFilters_error_iff_offending (tbl : UnicodeTables) (e : EC2Service)
    (filters : List GoString) :
    filterMap.map Prod.fst = filterKeys ∧
    ∃ e' err, EC2Service.SetFilters tbl e filters = some (e', err) ∧
      (err ≠ none ↔ ∃ f ∈ filters, Offending f) ∧
      ∀ pre f post, filters = pre ++ f :: post → (∀ g ∈ pre, ¬ Offending g) → Offending f →
        err = some (filterError f) := by
  refine ⟨rfl, ?_⟩
  induction filters generalizing e with
  | nil =>
    refine ⟨e, none, rfl, by simp, ?_⟩
    intro pre f post h
    simp at h
  | cons f rest ih =>
    rw [setFilters_cons]
    by_cases hf : Offending f
    · rw [if_neg ((not_offending_iff f).not.1 (not_not.2 hf))]
      refine ⟨e, some (filterError f), rfl, ?_, ?_⟩
      · simp only [ne_eq, reduceCtorEq, not_false_eq_true, true_iff]
        exact ⟨f, List.mem_cons_self _ _, hf⟩
      · intro pre g post h hpre _
        cases pre with
        | nil =>
          simp only [List.nil_append, List.cons.injEq] at h
          rw [h.1]
        | cons p pre' =>
          simp only [List.cons_append, List.cons.injEq] at h
          exact absurd hf (h.1 ▸ hpre p (List.mem_cons_self _ _))
    · rw [if_pos ((not_offending_iff f).1 hf)]
      obtain ⟨e', err, hrun, hiff, hfirst⟩ :=
        ih { e with Filters :=
          appendSlice e.Filters (some (translated tbl (keyOf f) (firstValue f))) }
      refine ⟨e', err, hrun, ?_, ?_⟩
      · rw [hiff]
        constructor
        · rintro ⟨g, hg, hoff⟩
          exact ⟨g, List.mem_cons_of_mem _ hg, hoff⟩
        · rintro ⟨g, hg, hoff⟩
          rcases List.mem_cons.1 hg with rfl | hg
          · exact absurd hoff hf
          · exact ⟨g, hg, hoff⟩
      · intro pre g post h hpre hoff
        cases pre with
        | nil =>
          simp only [List.nil_append, List.cons.injEq] at h
          exact absurd (h.1 ▸ hoff) hf
        | cons p pre' =>
          simp only [List.cons_append, List.cons.injEq] at h
          exact hfirst pre' g post h.2 (fun q hq => hpre q (List.mem_cons_of_mem _ hq)) hoff

/-- C1, at the filters `name=a`, `foo=x` and `bar`: the error is the one of
`foo=x`, the first that offends. -/
theorem C1_setFilters_error_iff_offending_witness :
    ∃ e', EC2Service.SetFilters plainTables emptyService [lit "name=a", lit "foo=x", lit "bar"] =
      some (e', some (lit "filter error: invalid filter key: 'foo'")) := by
  obtain ⟨e', err, hrun, -, hfirst⟩ :=
    (C1_setFilters_error_iff_offending plainTables emptyService
      [lit "name=a", lit "foo=x", lit "bar"]).2
  have herr := hfirst [lit "name=a"] (lit "foo=x") [lit "bar"] rfl (by decide) (by decide)
  exact ⟨e', by rw [hrun, herr]; rfl⟩

/-- C2: on a list of well-formed filters `key=value`, with the key in
`filterMap` and no `=` in the value, `SetFilters` succeeds and leaves in
`Filters` the previous filters followed by one entry per input filter, in
input order: its name is the provider's name of the key and its values are
the three patterns `*value*`, `*Title(value)*`, `*Lower(value)*`. The name is
the one `filterMap` holds for the key. -/
theorem C2_setFilters_appends_translations (tbl : UnicodeTables) (e : EC2Service)
    (kvs : List (GoString × GoString))
    (h : ∀ p ∈ kvs, p.1 ∈ filterKeys ∧ 0x3D ∉ p.2) :
    (∃ e', EC2Service.SetFilters tbl e (kvs.map (fun p => p.1 ++ lit "=" ++ p.2))
        = some (e', none) ∧
      e'.Filters.getD [] =
        e.Filters.getD [] ++ kvs.map (fun p => some (translated tbl p.1 p.2))) ∧
    ∀ p ∈ kvs, mapGet filterMap p.1 = some (providerKey p.1) := by
  constructor
  · induction kvs generalizing e with
    | nil => exact ⟨e, rfl, by simp⟩
    | cons p rest ih =>
      obtain ⟨hk, hv⟩ := h p (List.mem_cons_self _ _)
      have hne : 0x3D ∉ p.1 := filterKeys_no_eq p.1 hk
      have hshape : p.1 ++ lit "=" ++ p.2 = p.1 ++ 0x3D :: p.2 := by
        rw [lit_eq]; simp
      have hkey : keyOf (p.1 ++ lit "=" ++ p.2) = p.1 := by
        rw [hshape]; exact keyOf_pair _ _ hne
      have hval : firstValue (p.1 ++ lit "=" ++ p.2) = p.2 := by
        unfold firstValue
        rw [hshape, afterEq_pair _ _ hne]
        exact takeWhile_ne_of_not_mem _ hv
      have hmem : 0x3D ∈ p.1 ++ lit "=" ++ p.2 := by
        rw [hshape]; simp
      obtain ⟨e', hrun, hfil⟩ :=
        ih { e with Filters := appendSlice e.Filters (some (translated tbl p.1 p.2)) }
          (fun q hq => h q (List.mem_cons_of_mem _ hq))
      refine ⟨e', ?_, ?_⟩
      · have hkey' : keyOf (p.1 ++ lit "=" ++ p.2) ∈ filterKeys := by rw [hkey]; exact hk
        rw [List.map_cons, setFilters_cons, if_pos ⟨hmem, hkey'⟩, hkey, hval]
        exact hrun
      · rw [hfil]
        simp [appendSlice]
  · intro p hp
    rw [mapGet_filterMap, if_pos (h p hp).1]

/-- C2, at the two filters `name=web` and `state=Running`. -/
theorem C2_setFilters_appends_translations_witness :
    (∀ p ∈ [(lit "name", lit "web"), (lit "state", lit "Running")],
        p.1 ∈ filterKeys ∧ 0x3D ∉ p.2) ∧
    ((∃ e', EC2Service.SetFilters plainTables emptyService
          ([(lit "name", lit "web"), (lit "state", lit "Running")].map
            (fun p => p.1 ++ lit "=" ++ p.2)) = some (e', none) ∧
        e'.Filters.getD [] =
          emptyService.Filters.getD [] ++
            [(lit "name", lit "web"), (lit "state", lit "Running")].map
              (fun p => some (translated plainTables p.1 p.2))) ∧
      ∀ p ∈ [(lit "name", lit "web"), (lit "state", lit "Running")],
        mapGet filterMap p.1 = some (providerKey p.1)) :=
  ⟨by decide, C2_setFilters_appends_translations plainTables emptyService _ (by decide)⟩

/-- C3: on the filter `name=a=b`, whose text after the first `=` is `a=b`,
`SetFilters` builds the patterns from `a` alone and drops `=b`, where the
claim has the patterns of `a=b`. The loop of `LoadFiltersFromFile` keeps such
a value whole: from the value `a=b` under the name `name` it builds the
patterns of `a=b`. -/
theorem C3_setFilters_drops_text_after_second_eq :
    afterEq (lit "name=a=b") = lit "a=b" ∧
    strings.Split (lit "name=a=b") 0x3D = [lit "name", lit "a", lit "b"] ∧
    (EC2Service.SetFilters plainTables emptyService [lit "name=a=b"]).map
        (fun r => (r.1.Filters, r.2)) =
      some (some [some ⟨some (lit "tag:Name"),
        [some (lit "*a*"), some (lit "*A*"), some (lit "*a*")]⟩], none) ∧
    (EC2Service.SetFilters plainTables emptyService [lit "name=a=b"]).map
        (fun r => (r.1.Filters, r.2)) ≠
      some (some [some (translated plainTables (lit "name") (lit "a=b"))], none) ∧
    loadFilters plainTables [some ⟨some (lit "name"), [some (lit "a=b")]⟩] =
      some ([some ⟨some (lit "tag:Name"),
        [some (lit "*a=b*"), some (lit "*A=B*"), some (lit "*a=b*")]⟩], none) := by
  decide

/-! ## Claims on `LoadFiltersFromFile` -/

/-- C4: when the file name contains `.json`, the file is read, and the
decoded filters have names that are all keys of `filterMap` (and string
values), `LoadFiltersFromFile` succeeds and replaces each name by its entry
of `filterMap`; a filter that had `n` values ends with `3n` values: the
wrapped values in their order, then for each value in order the title case
and the lower case of the wrapped value. When a decoded filter whose name is
not a key follows such filters, the error `invalid filter key` with that name
is returned. -/
theorem C4_loadFiltersFromFile_translates (tbl : UnicodeTables) (fs : FilterFile)
    (e : EC2Service) (filtersFile content : GoString) (good : List (GoString × List GoString))
    (hjson : strings.Contains filtersFile (lit ".json") = true)
    (hread : fs.ReadFile filtersFile = (content, none))
    (hkeys : ∀ p ∈ good, p.1 ∈ filterKeys) :
    (fs.Decode e.Filters content = some (good.map decodedFilter) →
      ∃ e', EC2Service.LoadFiltersFromFile tbl fs e filtersFile = some (e', none) ∧
        e'.Filters = some (good.map
          (fun p => some ⟨some (providerKey p.1), (loadedValues tbl p.2).map some⟩))) ∧
    (∀ p ∈ good, mapGet filterMap p.1 = some (providerKey p.1) ∧
      (loadedValues tbl p.2).length = 3 * p.2.length ∧
      (loadedValues tbl p.2).take p.2.length = p.2.map wrap ∧
      (loadedValues tbl p.2).drop p.2.length =
        p.2.flatMap (fun v => [strings.Title tbl (wrap v), strings.ToLower tbl (wrap v)])) ∧
    (∀ name vals post, name ∉ filterKeys →
      fs.Decode e.Filters content = some (good.map decodedFilter ++ some ⟨some name, vals⟩ :: post) →
      ∃ e', EC2Service.LoadFiltersFromFile tbl fs e filtersFile = some (e', some (keyError name))) := by
  refine ⟨?_, ?_, ?_⟩
  · intro hdec
    have hl := loadFilters_good tbl good hkeys [] [] none rfl
    simp only [List.append_nil] at hl
    simp only [EC2Service.LoadFiltersFromFile, hjson, hread, hdec, hl]
    exact ⟨_, rfl, rfl⟩
  · intro p hp
    refine ⟨?_, ?_, ?_, ?_⟩
    · rw [mapGet_filterMap, if_pos (hkeys p hp)]
    · have hlen : ∀ vs : List GoString,
          (vs.flatMap (fun v => [strings.Title tbl (wrap v), strings.ToLower tbl (wrap v)])).length
            = 2 * vs.length := by
        intro vs
        induction vs with
        | nil => rfl
        | cons v vs ih => simp only [List.flatMap_cons, List.length_append, ih, List.length_cons,
            List.length_nil]; omega
      simp only [loadedValues, List.length_append, List.length_map, hlen]
      omega
    · simp [loadedValues, List.take_append_eq_append_take]
    · simp [loadedValues, List.drop_append_eq_append_drop]
  · intro name vals post hname hdec
    have hm : mapGet filterMap name = none := by rw [mapGet_filterMap, if_neg hname]
    have ht : loadFilters tbl (some ⟨some name, vals⟩ :: post) =
        some (some ⟨some name, vals⟩ :: post, some (keyError name)) := by
      simp [loadFilters, hm, keyError]
    have hl := loadFilters_good tbl good hkeys _ _ _ ht
    simp only [EC2Service.LoadFiltersFromFile, hjson, hread, hdec, hl]
    exact ⟨_, rfl⟩

/-- C4, at a file that holds the filter `az` with the values `a` and `b`. -/
theorem C4_loadFiltersFromFile_translates_witness :
    ∃ e', EC2Service.LoadFiltersFromFile plainTables sampleFile emptyService (lit "f.json")
        = some (e', none) ∧
      e'.Filters = some [some ⟨some (lit "availability-zone"),
        [some (lit "*a*"), some (lit "*b*"), some (lit "*A*"), some (lit "*a*"),
          some (lit "*B*"), some (lit "*b*")]⟩] :=
  (C4_loadFiltersFromFile_translates plainTables sampleFile emptyService (lit "f.json") []
    [(lit "az", [lit "a", lit "b"])] (by decide) rfl (by decide)).1 rfl

/-! ## Claims on the tables -/

/-- C5 fails on the code: `GetInstances` builds one row per reservation, not
per instance. A reservation of two running instances gives one row of twelve
fields, a running instance without tags gives a row of five fields, without
the name, and a reservation whose only instance is terminated gives an empty
row. -/
theorem C5_getInstances_one_row_per_reservation :
    (describing ⟨[⟨[runningInstance (some (lit "web1")) (lit "i-1") (lit "10.0.0.1"),
        runningInstance (some (lit "web2")) (lit "i-2") (lit "10.0.0.2")]⟩]⟩).GetInstances =
      some ([[lit "web1", lit "i-1", lit "running", lit "10.0.0.1", lit "", lit "t2.micro",
        lit "web2", lit "i-2", lit "running", lit "10.0.0.2", lit "", lit "t2.micro"]], none) ∧
    (describing ⟨[⟨[runningInstance none (lit "i-1") (lit "10.0.0.1")]⟩]⟩).GetInstances =
      some ([[lit "i-1", lit "running", lit "10.0.0.1", lit "", lit "t2.micro"]], none) ∧
    (describing ⟨[⟨[terminatedInstance (lit "i-1")]⟩]⟩).GetInstances = some ([[]], none) := by
  decide

/-- C6: on a successful response that lists an available instance and then
an instance in status `creating`, which has no endpoint yet, `GetRDSInstances`
dereferences the `nil` endpoint and panics: it returns no row at all, where
the claim has one row for each of the two instances. The same response with
the endpoint set gives the two rows, and `GetInstances` gives an instance
without public IP its row, with an empty field. -/
theorem C6_getRDSInstances_panics_without_endpoint :
    creatingRDS.GetRDSInstances noWrap = none ∧
    creatingInstances.map (fun inst => inst.DBInstanceStatus) =
      [some (lit "available"), some (lit "creating")] ∧
    (RDSService.mk ⟨(some ⟨creatingInstances.map
        (fun inst => { inst with Endpoint := some ⟨some (lit "db.example.com")⟩ })⟩,
      none)⟩).GetRDSInstances noWrap =
      some ([[lit "db-1", lit "available", lit "db.example.com", lit "db.t2.micro",
          lit "mysql/5.7", lit "true"],
        [lit "db-2", lit "creating", lit "db.example.com", lit "db.t2.micro",
          lit "mysql/5.7", lit "false"]], none) ∧
    (describing ⟨[⟨[runningInstance (some (lit "web1")) (lit "i-1") (lit "10.0.0.1")]⟩]⟩).GetInstances =
      some ([[lit "web1", lit "i-1", lit "running", lit "10.0.0.1", lit "", lit "t2.micro"]],
        none) := by
  exact ⟨by decide, by decide, by decide, by decide⟩

/-! ## Claims on `StopInstances` -/

/-- C7: `StopInstances` calls the service once, with a request whose
`InstanceIds` are the IDs of the receiver, in order and as many, and whose
`DryRun` is the flag, and returns what the service returns. The command
`stopInstance` calls the service once, with all of its arguments as the IDs;
when the call fails it returns that error and its events are the start of
the spinner, the call and the stop of the spinner: nothing is printed. -/
theorem C7_stopInstances_passes_ids (e : EC2Service) (sess : EC2API) (dryRun : Bool)
    (args : List GoString) :
    (e.StopInstances dryRun).1 = [Event.stopInstances (some ⟨some dryRun, e.IDs.map some⟩)] ∧
    (e.StopInstances dryRun).2 = e.Service.StopInstances (some ⟨some dryRun, e.IDs.map some⟩) ∧
    (e.IDs.map some).length = e.IDs.length ∧
    (stopInstance sess dryRun args).1.filter Event.isCall =
      [Event.stopInstances (some ⟨some dryRun, args.map some⟩)] ∧
    (∀ resp err, sess.StopInstances (some ⟨some dryRun, args.map some⟩) = (resp, some err) →
      stopInstance sess dryRun args =
        ([Event.spinnerStart, Event.stopInstances (some ⟨some dryRun, args.map some⟩),
          Event.spinnerStop], some (some err)) ∧
      (stopInstance sess dryRun args).1.filter Event.isPrint = []) := by
  refine ⟨?_, ?_, ?_, ?_, ?_⟩
  · rw [stopInstances_eq]; rfl
  · rw [stopInstances_eq]; rfl
  · simp
  · simp only [stopInstance, stopInstances_eq, stopRequest]
    split
    · simp [Event.isCall]
    · simp [Event.isCall]
    · simp [Event.isCall, printStates_no_call]
  · intro resp err h
    have hrun : stopInstance sess dryRun args =
        ([Event.spinnerStart, Event.stopInstances (some ⟨some dryRun, args.map some⟩),
          Event.spinnerStop], some (some err)) := by
      simp [stopInstance, stopInstances_eq, stopRequest, h]
    refine ⟨hrun, ?_⟩
    rw [hrun]
    simp [Event.isPrint]

/-- C7, at a service whose `StopInstances` fails with `denied`, for the two
arguments `i-1` and `i-2`. -/
theorem C7_stopInstances_passes_ids_witness :
    stopInstance (failingStop (lit "denied")) true [lit "i-1", lit "i-2"] =
      ([Event.spinnerStart,
        Event.stopInstances (some ⟨some true, [some (lit "i-1"), some (lit "i-2")]⟩),
        Event.spinnerStop], some (some (lit "denied"))) :=
  ((C7_stopInstances_passes_ids emptyService (failingStop (lit "denied")) true
    [lit "i-1", lit "i-2"]).2.2.2.2 none (lit "denied") rfl).1

/-! ## The two translations agree -/

/-- C8: for a key `k` of `filterMap` and a value `v` without `=`,
`SetFilters` on the one filter `k=v` appends the very filter that the loop of
`LoadFiltersFromFile` makes of a decoded filter named `k` with the one value
`v`: the same name and the same three values in the same order. In
particular `Title` and `ToLower` commute with the wrapping in `*`. -/
theorem C8_setFilters_agrees_with_loadFilters (tbl : UnicodeTables) (e : EC2Service)
    (k v : GoString) (hk : k ∈ filterKeys) (hv : 0x3D ∉ v) :
    (∃ e' fl,
      EC2Service.SetFilters tbl e [k ++ lit "=" ++ v] = some (e', none) ∧
      e'.Filters = appendSlice e.Filters (some fl) ∧
      loadFilters tbl [some ⟨some k, [some v]⟩] = some ([some fl], none) ∧
      fl = ⟨some (providerKey k),
        [ some (lit "*" ++ v ++ lit "*"),
          some (lit "*" ++ strings.Title tbl v ++ lit "*"),
          some (lit "*" ++ strings.ToLower tbl v ++ lit "*") ]⟩) ∧
    strings.Title tbl (lit "*" ++ v ++ lit "*") = lit "*" ++ strings.Title tbl v ++ lit "*" ∧
    strings.ToLower tbl (lit "*" ++ v ++ lit "*") = lit "*" ++ strings.ToLower tbl v ++ lit "*" := by
  refine ⟨?_, title_wrap tbl v, toLower_wrap tbl v⟩
  have hne : 0x3D ∉ k := filterKeys_no_eq k hk
  have hshape : k ++ lit "=" ++ v = k ++ 0x3D :: v := by
    rw [lit_eq]; simp
  have hkey : keyOf (k ++ lit "=" ++ v) = k := by
    rw [hshape]; exact keyOf_pair _ _ hne
  have hval : firstValue (k ++ lit "=" ++ v) = v := by
    unfold firstValue
    rw [hshape, afterEq_pair _ _ hne]
    exact takeWhile_ne_of_not_mem _ hv
  have hmem : 0x3D ∈ k ++ lit "=" ++ v := by
    rw [hshape]; simp
  have hkey' : keyOf (k ++ lit "=" ++ v) ∈ filterKeys := by rw [hkey]; exact hk
  have hload := loadFilters_good tbl [(k, [v])] (by simpa using hk) [] [] none rfl
  refine ⟨{ e with Filters := appendSlice e.Filters (some (translated tbl k v)) },
    translated tbl k v, ?_, rfl, ?_, rfl⟩
  · rw [setFilters_cons, if_pos ⟨hmem, hkey'⟩, hkey, hval]
    rfl
  · simp only [List.map_cons, List.map_nil, List.append_nil, decodedFilter] at hload
    rw [hload]
    simp [translated, patterns, loadedValues, title_wrap, toLower_wrap]

/-- C8, at the filter `name=Web`. -/
theorem C8_setFilters_agrees_with_loadFilters_witness :
    (lit "name" ∈ filterKeys ∧ 0x3D ∉ lit "Web") ∧
    strings.Title plainTables (lit "*" ++ lit "Web" ++ lit "*") =
      lit "*" ++ strings.Title plainTables (lit "Web") ++ lit "*" :=
  ⟨by decide, (C8_setFilters_agrees_with_loadFilters plainTables emptyService (lit "name")
    (lit "Web") (by decide) (by decide)).2.1⟩

end AwsGo
